import Mathlib

/-!
Verification development for `sync.py` of the perception22-akula repository.

The file shallowly embeds the two cores of `sync.py`:

* the stream-synchronization scheduler inside `aplly_EKF` (lines 69-141),
  modelled as an executable function over the two tokenized input files,
  producing the trace of `predict`/`update` calls and trajectory appends
  issued to the EKF object (the EKF internals live in `ekf.py`, which is
  not part of this repository's sources; the scheduler itself never reads
  the belief, so its control flow is independent of them);
* the pure function `forward_kinematics` (lines 8-51) and the
  dead-reckoning baseline loop (lines 146-172), modelled over the reals.

Python floats are modelled as real numbers; Python ints as `Int`.
A log file is a list of lines: each line is either a whitespace triple of
integers or a blank line (`'\n'`); reading past the end of the list models
`readline()` returning `''` (end of input).  Unpacking a parsed line that
is not a triple (a blank line or end of input where a triple is required)
raises `ValueError` in Python; the model returns `none` for such a crash.
-/

namespace Sync

/-- One line of a log file: a whitespace-separated integer triple
`(timestamp, leftCumulativeTicks, rightCumulativeTicks)` or a blank line. -/
inductive RawLine where
  | triple (t l r : Int)
  | blank
  deriving DecidableEq

/-- Whether a scheduler `predict` call is issued inside the
observation-draining inner loop (line 120) or as the catch-up predict at
the action timestamp (line 137). -/
inductive PKind where
  | inner
  | catchup
  deriving DecidableEq

/-- One call issued by the scheduler to the EKF object, or one append to the
filtered trajectory lists `x`, `y`, `th`.  A `predict` records the cumulative
counts `left_acts_prev`, `right_acts_prev` of the previous action sample from
which the control pair `[v, w]` is computed (lines 116-117), together with the
`dt` argument; an `update` records the observation tick deltas passed at
line 121. -/
inductive Event where
  | predict (kind : PKind) (leftPrev rightPrev : Int) (dt : ℚ)
  | update (dl dr : Int)
  | append
  deriving DecidableEq

/-- The `dt` argument of a predict call: `(tNew - tOld) / 1000`
(lines 120 and 137). -/
def mkDt (tNew tOld : Int) : ℚ := ((tNew - tOld : Int) : ℚ) / 1000

/-- Lines 71-77 of `sync.py`: skip leading observation samples until the
cumulative counts change (`if (left_obs - left_obs_prev) or (right_obs -
right_obs_prev): break`).  Returns the last unchanged sample, the first
changed sample, and the unread remainder; `none` models the `ValueError`
raised when a blank line or end of input is unpacked into three names. -/
def findFirstObs : List RawLine → (Int × Int × Int) →
    Option ((Int × Int × Int) × (Int × Int × Int) × List RawLine)
  | [], _ => none
  | RawLine.blank :: _, _ => none
  | RawLine.triple t l r :: rest, (tp, lp, rp) =>
      if l - lp ≠ 0 ∨ r - rp ≠ 0 then some ((tp, lp, rp), (t, l, r), rest)
      else findFirstObs rest (t, l, r)

/-- Lines 69-80 of `sync.py`: read the first observation line, skip to the
first tick change, record `ts_obs_0` (the timestamp of the last unchanged
sample), reset `ts_obs_prev` to `0` and normalize the held current sample.
Returns `(ts_obs_0, prev, cur, rest)`. -/
def schedInit (obsFile : List RawLine) :
    Option (Int × (Int × Int × Int) × (Int × Int × Int) × List RawLine) :=
  match obsFile with
  | RawLine.triple t0 l0 r0 :: rest =>
      match findFirstObs rest (t0, l0, r0) with
      | some ((tp, lp, rp), (tc, lc, rc), rest2) =>
          some (tp, (0, lp, rp), (tc - tp, lc, rc), rest2)
      | none => none
  | _ => none

/-- The observation timestamp origin `ts_obs_0` the scheduler subtracts from
every observation timestamp (lines 78-80). -/
def obsOrigin (obsFile : List RawLine) : Option Int :=
  (schedInit obsFile).map (fun q => q.1)

/-- The action timestamp origin `ts_acts_0` the scheduler subtracts from
every action timestamp (lines 82-83, 114): the first action line's timestamp. -/
def actsOrigin (actsFile : List RawLine) : Option Int :=
  match actsFile with
  | RawLine.triple t0 _ _ :: _ => some t0
  | _ => none

/-- The timestamp of the first sample of a stream (for comparison with the
origins actually used by the scheduler). -/
def firstTs (file : List RawLine) : Option Int :=
  match file with
  | RawLine.triple t0 _ _ :: _ => some t0
  | _ => none

/-- The block of calls one iteration of the observation-draining inner loop
issues (lines 120-126 of `sync.py`): `predict([v, w], (ts_obs - ts)/1000)`,
`update` with the observation tick deltas, then the appends to `x`, `y`,
`th` (one pose). -/
def innerBlock (lap rap tso ts lo ro : Int) (prv : Int × Int × Int) : List Event :=
  [Event.predict PKind.inner lap rap (mkDt tso ts),
   Event.update (lo - prv.2.1) (ro - prv.2.2),
   Event.append]

/-- Lines 119-135 of `sync.py`: the observation-draining inner loop
`while ts_obs <= ts_acts`.  Arguments: the observation origin `tsObs0`, the
current action timestamp `tsActs` (already normalized), the previous action
sample's cumulative counts `lap`/`rap` (from which `v`, `w` are computed),
the unread observation lines, the held current observation sample (`none`
models `ts_obs = np.inf` after the blank-line sentinel), the previous
observation sample, and the last predict time `ts`.  Returns the emitted
events and the final `(cur, prev, ts, rest)`.  The loop guard is evaluated
first; when the body runs, the `readline` at line 128 is split by what it
returns: end of input (empty remainder) crashes the unpack at line 134
(`none`), a blank line sets `ts_obs = np.inf` and breaks, a triple line
shifts the previous-sample slot and continues the loop. -/
def innerLoop (tsObs0 tsActs lap rap : Int) :
    List RawLine → Option (Int × Int × Int) → (Int × Int × Int) → Int →
    Option (List Event × (Option (Int × Int × Int) × (Int × Int × Int) × Int × List RawLine))
  | rest, none, prv, ts => some ([], (none, prv, ts, rest))
  | [], some (tso, lo, ro), prv, ts =>
      if tso ≤ tsActs then none
      else some ([], (some (tso, lo, ro), prv, ts, []))
  | RawLine.blank :: rest2, some (tso, lo, ro), prv, ts =>
      if tso ≤ tsActs then
        some (innerBlock lap rap tso ts lo ro prv, (none, prv, tso, rest2))
      else some ([], (some (tso, lo, ro), prv, ts, RawLine.blank :: rest2))
  | RawLine.triple t l r :: rest2, some (tso, lo, ro), prv, ts =>
      if tso ≤ tsActs then
        match innerLoop tsObs0 tsActs lap rap rest2 (some (t - tsObs0, l, r)) (tso, lo, ro) tso with
        | none => none
        | some (evs2, st) => some (innerBlock lap rap tso ts lo ro prv ++ evs2, st)
      else some ([], (some (tso, lo, ro), prv, ts, RawLine.triple t l r :: rest2))

/-- Lines 109-140 of `sync.py`: the outer `while True` loop over action
lines.  Per action line: normalize its timestamp, run the inner loop with
the controls derived from the previous action sample, issue the final
catch-up predict (line 137, with no update and no append), advance
`ts = ts_acts`, shift the previous-action-sample slot, and recurse.  An
empty `acts_line` (end of input) leaves the loop; a blank line crashes the
unpack at line 113 (`none`). -/
def outerLoop (tsObs0 tsActs0 : Int) :
    List RawLine → Option (Int × Int × Int) → (Int × Int × Int) → List RawLine → Int →
    (Int × Int × Int) →
    Option (List Event × (Option (Int × Int × Int) × (Int × Int × Int) × Int × List RawLine))
  | [], cur, prv, obsRest, ts, _ => some ([], (cur, prv, ts, obsRest))
  | RawLine.blank :: _, _, _, _, _, _ => none
  | RawLine.triple ta la ra :: acts2, cur, prv, obsRest, ts, actsPrev =>
      let tsActs := ta - tsActs0
      match innerLoop tsObs0 tsActs actsPrev.2.1 actsPrev.2.2 obsRest cur prv ts with
      | none => none
      | some (evs, (cur2, prv2, ts2, obsRest2)) =>
          match outerLoop tsObs0 tsActs0 acts2 cur2 prv2 obsRest2 tsActs (tsActs, la, ra) with
          | none => none
          | some (evs3, fin) =>
              some (evs ++
                    Event.predict PKind.catchup actsPrev.2.1 actsPrev.2.2 (mkDt tsActs ts2) ::
                    evs3, fin)

/-- Lines 69-141 of `sync.py`: the whole scheduler.  Initializes both
streams (first-line reads normalize each stream's clock), then runs the
outer loop starting from `ts = 0` with the first action sample as the
previous-action slot (its stored timestamp is `0` after line 84). -/
def runScheduler (obsFile actsFile : List RawLine) :
    Option (List Event × (Option (Int × Int × Int) × (Int × Int × Int) × Int × List RawLine)) :=
  match schedInit obsFile with
  | none => none
  | some (tsObs0, prv, cur, obsRest) =>
      match actsFile with
      | RawLine.triple ta0 la0 ra0 :: actsRest =>
          outerLoop tsObs0 ta0 actsRest (some cur) prv obsRest 0 (0, la0, ra0)
      | _ => none

/-- Count the events satisfying a predicate. -/
def countEv (p : Event → Bool) (evs : List Event) : Nat := (evs.filter p).length

/-- Event classifiers. -/
def isUpdate : Event → Bool
  | Event.update _ _ => true
  | _ => false

def isAppend : Event → Bool
  | Event.append => true
  | _ => false

def isPredict : Event → Bool
  | Event.predict _ _ _ _ => true
  | _ => false

def isPredK (k : PKind) : Event → Bool
  | Event.predict k2 _ _ _ => k == k2
  | _ => false

/-- Number of integer triples (parsable samples) in a list of lines. -/
def countTriples : List RawLine → Nat
  | [] => 0
  | RawLine.triple _ _ _ :: t => countTriples t + 1
  | RawLine.blank :: t => countTriples t

/-- `1` for a held observation sample, `0` for an exhausted stream. -/
def optCount : Option (Int × Int × Int) → Nat
  | none => 0
  | some _ => 1

/-- The `(leftPrev, rightPrev)` count pairs carried by the predict events of
a trace, in order. -/
def predictCounts : List Event → List (Int × Int)
  | [] => []
  | Event.predict _ lp rp _ :: t => (lp, rp) :: predictCounts t
  | _ :: t => predictCounts t

/-- Tick deltas between consecutive samples of an action stream (the
quantity the specification's step-1 sentence says the controls are derived
from). -/
def actsDeltas : List RawLine → List (Int × Int)
  | RawLine.triple _ l1 r1 :: RawLine.triple t2 l2 r2 :: rest =>
      (l2 - l1, r2 - r1) :: actsDeltas (RawLine.triple t2 l2 r2 :: rest)
  | _ => []

/-- All lines of the list are integer triples. -/
def allTriples : List RawLine → Bool
  | [] => true
  | RawLine.triple _ _ _ :: t => allTriples t
  | RawLine.blank :: _ => false

/-- The list contains a blank line before any end of input (so every
`readline` of the scheduler gets an actual line until the sentinel). -/
def blankTerminated : List RawLine → Bool
  | [] => false
  | RawLine.blank :: _ => true
  | RawLine.triple _ _ _ :: t => blankTerminated t

/-- Timestamps of the triples of a list of lines are no smaller than the
bound (when given) and non-decreasing from left to right. -/
def linesSorted : Option Int → List RawLine → Bool
  | _, [] => true
  | bound, RawLine.blank :: t => linesSorted bound t
  | bound, RawLine.triple ts _ _ :: t =>
      (match bound with
       | none => true
       | some b => decide (b ≤ ts)) && linesSorted (some ts) t

/-- The prefix of a trace up to and including the first catch-up predict:
the calls issued while the scheduler processes one action sample. -/
def upToFirstCatchup : List Event → List Event
  | [] => []
  | e :: t => if isPredK PKind.catchup e then [e] else e :: upToFirstCatchup t

end Sync


namespace Sync

/-! ### Counting helper lemmas -/

theorem countEv_nil (p : Event → Bool) : countEv p [] = 0 := rfl

theorem countEv_cons (p : Event → Bool) (e : Event) (t : List Event) :
    countEv p (e :: t) = (if p e then 1 else 0) + countEv p t := by
  simp only [countEv, List.filter_cons]
  split <;> simp [Nat.add_comm]

theorem countEv_append (p : Event → Bool) (a b : List Event) :
    countEv p (a ++ b) = countEv p a + countEv p b := by
  simp [countEv, List.filter_append]

theorem countEv_cons_pos {p : Event → Bool} {e : Event} (h : p e = true) (t : List Event) :
    countEv p (e :: t) = countEv p t + 1 := by
  simp [countEv, List.filter_cons, h]

theorem countEv_cons_neg {p : Event → Bool} {e : Event} (h : p e = false) (t : List Event) :
    countEv p (e :: t) = countEv p t := by
  simp [countEv, List.filter_cons, h]

theorem innerBlock_update_count (lap rap tso ts lo ro : Int) (prv : Int × Int × Int) :
    countEv isUpdate (innerBlock lap rap tso ts lo ro prv) = 1 := rfl

theorem innerBlock_catchup_count (lap rap tso ts lo ro : Int) (prv : Int × Int × Int) :
    countEv (isPredK PKind.catchup) (innerBlock lap rap tso ts lo ro prv) = 0 := rfl

theorem innerBlock_inner_count (lap rap tso ts lo ro : Int) (prv : Int × Int × Int) :
    countEv (isPredK PKind.inner) (innerBlock lap rap tso ts lo ro prv) = 1 := rfl

theorem innerBlock_append_count (lap rap tso ts lo ro : Int) (prv : Int × Int × Int) :
    countEv isAppend (innerBlock lap rap tso ts lo ro prv) = 1 := rfl

theorem innerBlock_predict_mem (lap rap tso ts lo ro : Int) (prv : Int × Int × Int)
    (k : PKind) (lp rp : Int) (dt : ℚ)
    (h : Event.predict k lp rp dt ∈ innerBlock lap rap tso ts lo ro prv) :
    k = PKind.inner ∧ lp = lap ∧ rp = rap := by
  simp only [innerBlock, List.mem_cons, List.not_mem_nil, or_false] at h
  rcases h with h | h | h <;> simp_all

/-! ### Inner-loop invariants: call conservation -/

/-- Every successful inner-loop run pairs its calls one-to-one: one inner
predict, one update and one append per observation sample it drains, no
catch-up predicts, the number of drained samples is the difference between
the observation samples available (held sample plus unread triples) before
and after, and every predict carries the previous action sample's counts. -/
theorem innerLoop_counts (t0 tA lap rap : Int) :
    ∀ (rest : List RawLine) (cur : Option (Int × Int × Int)) (prv : Int × Int × Int) (ts : Int)
      (evs : List Event) (cur2 : Option (Int × Int × Int)) (prv2 : Int × Int × Int)
      (ts2 : Int) (rest2 : List RawLine),
      innerLoop t0 tA lap rap rest cur prv ts = some (evs, (cur2, prv2, ts2, rest2)) →
      countEv isUpdate evs + optCount cur2 + countTriples rest2
          = optCount cur + countTriples rest
        ∧ countEv (isPredK PKind.catchup) evs = 0
        ∧ countEv (isPredK PKind.inner) evs = countEv isUpdate evs
        ∧ countEv isAppend evs = countEv isUpdate evs
        ∧ (∀ k lp rp dt, Event.predict k lp rp dt ∈ evs →
            k = PKind.inner ∧ lp = lap ∧ rp = rap) := by
  intro rest
  induction rest with
  | nil =>
      intro cur prv ts evs cur2 prv2 ts2 rest2 h
      cases cur with
      | none =>
          simp only [innerLoop, Option.some.injEq, Prod.mk.injEq] at h
          obtain ⟨he, hc, hp, ht, hr⟩ := h
          subst he; subst hc; subst hp; subst ht; subst hr
          exact ⟨rfl, rfl, rfl, rfl, by simp⟩
      | some trip =>
          obtain ⟨tso, lo, ro⟩ := trip
          by_cases hle : tso ≤ tA
          · simp [innerLoop, hle] at h
          · simp only [innerLoop, if_neg hle, Option.some.injEq, Prod.mk.injEq] at h
            obtain ⟨he, hc, hp, ht, hr⟩ := h
            subst he; subst hc; subst hp; subst ht; subst hr
            exact ⟨rfl, rfl, rfl, rfl, by simp⟩
  | cons line tail ih =>
      intro cur prv ts evs cur2 prv2 ts2 rest2 h
      cases cur with
      | none =>
          simp only [innerLoop, Option.some.injEq, Prod.mk.injEq] at h
          obtain ⟨he, hc, hp, ht, hr⟩ := h
          subst he; subst hc; subst hp; subst ht; subst hr
          exact ⟨rfl, rfl, rfl, rfl, by simp⟩
      | some trip =>
          obtain ⟨tso, lo, ro⟩ := trip
          by_cases hle : tso ≤ tA
          · cases line with
            | blank =>
                simp only [innerLoop, if_pos hle, Option.some.injEq, Prod.mk.injEq] at h
                obtain ⟨he, hc, hp, ht, hr⟩ := h
                subst he; subst hc; subst hp; subst ht; subst hr
                refine ⟨?_, rfl, rfl, rfl, ?_⟩
                · simp [innerBlock_update_count, optCount, countTriples]
                · intro k lp rp dt hm
                  exact innerBlock_predict_mem _ _ _ _ _ _ _ _ _ _ _ hm
            | triple t l r =>
                simp only [innerLoop, if_pos hle] at h
                rcases heq : innerLoop t0 tA lap rap tail (some (t - t0, l, r)) (tso, lo, ro) tso
                  with _ | ⟨evs2, c2, p2, t2, r2⟩
                · rw [heq] at h
                  exact absurd h (by simp)
                · rw [heq] at h
                  simp only [Option.some.injEq, Prod.mk.injEq] at h
                  obtain ⟨he, hc, hp, ht, hr⟩ := h
                  subst he; subst hc; subst hp; subst ht; subst hr
                  obtain ⟨ih1, ih2, ih3, ih4, ih5⟩ :=
                    ih (some (t - t0, l, r)) (tso, lo, ro) tso evs2 c2 p2 t2 r2 heq
                  refine ⟨?_, ?_, ?_, ?_, ?_⟩
                  · simp only [countEv_append, innerBlock_update_count, optCount, countTriples] at *
                    omega
                  · simp only [countEv_append, innerBlock_catchup_count] at *
                    omega
                  · simp only [countEv_append, innerBlock_inner_count,
                      innerBlock_update_count] at *
                    omega
                  · simp only [countEv_append, innerBlock_append_count,
                      innerBlock_update_count] at *
                    omega
                  · intro k lp rp dt hm
                    rcases List.mem_append.mp hm with hm | hm
                    · exact innerBlock_predict_mem _ _ _ _ _ _ _ _ _ _ _ hm
                    · exact ih5 k lp rp dt hm
          · cases line <;>
              · simp only [innerLoop, if_neg hle, Option.some.injEq, Prod.mk.injEq] at h
                obtain ⟨he, hc, hp, ht, hr⟩ := h
                subst he; subst hc; subst hp; subst ht; subst hr
                exact ⟨rfl, rfl, rfl, rfl, by simp⟩


/-! ### Outer-loop invariants: call conservation -/

/-- Every successful run of the scheduler's outer loop issues exactly one
catch-up predict per action sample it processes, one update (paired with
one inner predict and one trajectory append) per observation sample it
consumes, and nothing else. -/
theorem outerLoop_counts (t0 a0 : Int) :
    ∀ (acts : List RawLine) (cur : Option (Int × Int × Int)) (prv : Int × Int × Int)
      (obsRest : List RawLine) (ts : Int) (ap : Int × Int × Int)
      (evs : List Event) (cur2 : Option (Int × Int × Int)) (prv2 : Int × Int × Int)
      (ts2 : Int) (rest2 : List RawLine),
      outerLoop t0 a0 acts cur prv obsRest ts ap = some (evs, (cur2, prv2, ts2, rest2)) →
      countEv isUpdate evs + optCount cur2 + countTriples rest2
          = optCount cur + countTriples obsRest
        ∧ countEv (isPredK PKind.catchup) evs = acts.length
        ∧ countEv (isPredK PKind.inner) evs = countEv isUpdate evs
        ∧ countEv isAppend evs = countEv isUpdate evs := by
  intro acts
  induction acts with
  | nil =>
      intro cur prv obsRest ts ap evs cur2 prv2 ts2 rest2 h
      simp only [outerLoop, Option.some.injEq, Prod.mk.injEq] at h
      obtain ⟨he, hc, hp, ht, hr⟩ := h
      subst he; subst hc; subst hp; subst ht; subst hr
      exact ⟨by simp [countEv], rfl, rfl, rfl⟩
  | cons line acts2 ih =>
      intro cur prv obsRest ts ap evs cur2 prv2 ts2 rest2 h
      cases line with
      | blank => exact absurd h (by simp [outerLoop])
      | triple ta la ra =>
          simp only [outerLoop] at h
          rcases hin : innerLoop t0 (ta - a0) ap.2.1 ap.2.2 obsRest cur prv ts
            with _ | ⟨evs1, c1, p1, t1, r1⟩
          · rw [hin] at h
            exact absurd h (by simp)
          · rw [hin] at h
            dsimp only at h
            rcases hrec : outerLoop t0 a0 acts2 c1 p1 r1 (ta - a0) (ta - a0, la, ra)
              with _ | ⟨evs3, fin⟩
            · rw [hrec] at h
              exact absurd h (by simp)
            · rw [hrec] at h
              simp only [Option.some.injEq, Prod.mk.injEq] at h
              obtain ⟨he, hfin⟩ := h
              obtain ⟨f1, f2, f3, f4⟩ := fin
              simp only [Prod.mk.injEq] at hfin
              obtain ⟨hc, hp, ht, hr⟩ := hfin
              subst he; subst hc; subst hp; subst ht; subst hr
              obtain ⟨i1, i2, i3, i4, _⟩ :=
                innerLoop_counts t0 (ta - a0) ap.2.1 ap.2.2 obsRest cur prv ts
                  evs1 c1 p1 t1 r1 hin
              obtain ⟨o1, o2, o3, o4⟩ :=
                ih c1 p1 r1 (ta - a0) (ta - a0, la, ra) evs3 f1 f2 f3 f4 hrec
              have hc1 : isUpdate
                  (Event.predict PKind.catchup ap.2.1 ap.2.2 (mkDt (ta - a0) t1)) = false := rfl
              have hc2 : isPredK PKind.catchup
                  (Event.predict PKind.catchup ap.2.1 ap.2.2 (mkDt (ta - a0) t1)) = true := rfl
              have hc3 : isPredK PKind.inner
                  (Event.predict PKind.catchup ap.2.1 ap.2.2 (mkDt (ta - a0) t1)) = false := rfl
              have hc4 : isAppend
                  (Event.predict PKind.catchup ap.2.1 ap.2.2 (mkDt (ta - a0) t1)) = false := rfl
              refine ⟨?_, ?_, ?_, ?_⟩
              · rw [countEv_append, countEv_cons_neg hc1]
                omega
              · rw [countEv_append, countEv_cons_pos hc2, List.length_cons]
                omega
              · rw [countEv_append, countEv_cons_neg hc3, countEv_append, countEv_cons_neg hc1]
                omega
              · rw [countEv_append, countEv_cons_neg hc4, countEv_append, countEv_cons_neg hc1]
                omega



/-- A trace with no catch-up predict in its first part keeps exactly that
part plus the first catch-up predict in `upToFirstCatchup`. -/
theorem upToFirstCatchup_append (evs : List Event)
    (h : countEv (isPredK PKind.catchup) evs = 0) (e : Event)
    (he : isPredK PKind.catchup e = true) (tail : List Event) :
    upToFirstCatchup (evs ++ e :: tail) = evs ++ [e] := by
  induction evs with
  | nil => simp [upToFirstCatchup, he]
  | cons a evs2 ih =>
      have ha : isPredK PKind.catchup a = false := by
        rcases hb : isPredK PKind.catchup a with _ | _
        · rfl
        · rw [countEv_cons_pos hb] at h
          omega
      have h2 : countEv (isPredK PKind.catchup) evs2 = 0 := by
        rw [countEv_cons_neg ha] at h
        exact h
      simp [upToFirstCatchup, ha, ih h2]

/-! ### Concrete input streams used by witnesses and counterexamples -/

/-- Observation stream: samples at raw times 0, 2, 5, 9 with one tick per
step on each wheel, terminated by a blank line. -/
def obsW : List RawLine :=
  [RawLine.triple 0 0 0, RawLine.triple 2 1 1, RawLine.triple 5 2 2,
   RawLine.triple 9 3 3, RawLine.blank]

/-- Action stream: samples at raw times 0, 6, 12. -/
def actsW : List RawLine :=
  [RawLine.triple 0 1 2, RawLine.triple 6 3 4, RawLine.triple 12 5 6]

/-- The scheduler trace on `obsW`/`actsW` (three drained observations, one
catch-up predict per action sample processed). -/
def wEvs : List Event :=
  [Event.predict PKind.inner 1 2 (mkDt 2 0), Event.update 1 1, Event.append,
   Event.predict PKind.inner 1 2 (mkDt 5 2), Event.update 1 1, Event.append,
   Event.predict PKind.catchup 1 2 (mkDt 6 5),
   Event.predict PKind.inner 3 4 (mkDt 9 6), Event.update 1 1, Event.append,
   Event.predict PKind.catchup 3 4 (mkDt 12 9)]

/-- Claim C2: over one full run of the scheduler loop, the number of
`update` calls equals the number of observation samples consumed (the
observation samples available at loop entry minus those still held or
unread when the loop ends) and differs from a count tied to action
samples: inner predicts pair one-to-one with updates, while exactly one
catch-up predict is issued per action sample processed. -/
theorem scheduler_update_per_obs_catchup_per_action
    (obsFile : List RawLine) (ta0 la0 ra0 : Int) (actsRest : List RawLine)
    (t0 : Int) (prv cur : Int × Int × Int) (obsRest : List RawLine)
    (evs : List Event) (cur2 : Option (Int × Int × Int)) (prv2 : Int × Int × Int)
    (ts2 : Int) (rest2 : List RawLine)
    (hinit : schedInit obsFile = some (t0, prv, cur, obsRest))
    (hrun : runScheduler obsFile (RawLine.triple ta0 la0 ra0 :: actsRest)
      = some (evs, (cur2, prv2, ts2, rest2))) :
    countEv isUpdate evs + (optCount cur2 + countTriples rest2)
        = optCount (some cur) + countTriples obsRest
      ∧ countEv (isPredK PKind.catchup) evs = actsRest.length
      ∧ countEv (isPredK PKind.inner) evs = countEv isUpdate evs := by
  have hrun2 : outerLoop t0 ta0 actsRest (some cur) prv obsRest 0 (0, la0, ra0)
      = some (evs, (cur2, prv2, ts2, rest2)) := by
    simpa [runScheduler, hinit] using hrun
  obtain ⟨h1, h2, h3, _⟩ :=
    outerLoop_counts t0 ta0 actsRest (some cur) prv obsRest 0 (0, la0, ra0)
      evs cur2 prv2 ts2 rest2 hrun2
  exact ⟨by omega, h2, h3⟩

/-- Witness for C2 on the concrete streams `obsW`, `actsW`: 3 updates for
3 observation samples consumed, 2 catch-up predicts for 2 action samples
processed by the loop. -/
theorem scheduler_update_per_obs_catchup_per_action_witness :
    countEv isUpdate wEvs + (optCount none + countTriples ([] : List RawLine))
        = optCount (some ((2 : Int), (1 : Int), (1 : Int)))
            + countTriples [RawLine.triple 5 2 2, RawLine.triple 9 3 3, RawLine.blank]
      ∧ countEv (isPredK PKind.catchup) wEvs
        = ([RawLine.triple 6 3 4, RawLine.triple 12 5 6] : List RawLine).length
      ∧ countEv (isPredK PKind.inner) wEvs = countEv isUpdate wEvs := by
  have h := scheduler_update_per_obs_catchup_per_action obsW 0 1 2
    [RawLine.triple 6 3 4, RawLine.triple 12 5 6] 0 (0, 0, 0) (2, 1, 1)
    [RawLine.triple 5 2 2, RawLine.triple 9 3 3, RawLine.blank]
    wEvs none (5, 2, 2) 12 [] (by rfl) (by rfl)
  exact ⟨h.1, h.2.1, h.2.2⟩

/-- Claim C6 (amended): a pose is appended to the filtered trajectory
exactly once per `update` call (after the predict/update pair of the inner
loop); the catch-up predicts append nothing, so the trajectory length
equals the number of updates, not the number of predicts plus updates. -/
theorem scheduler_append_iff_update
    (obsFile : List RawLine) (ta0 la0 ra0 : Int) (actsRest : List RawLine)
    (t0 : Int) (prv cur : Int × Int × Int) (obsRest : List RawLine)
    (evs : List Event) (cur2 : Option (Int × Int × Int)) (prv2 : Int × Int × Int)
    (ts2 : Int) (rest2 : List RawLine)
    (hinit : schedInit obsFile = some (t0, prv, cur, obsRest))
    (hrun : runScheduler obsFile (RawLine.triple ta0 la0 ra0 :: actsRest)
      = some (evs, (cur2, prv2, ts2, rest2))) :
    countEv isAppend evs = countEv isUpdate evs := by
  have hrun2 : outerLoop t0 ta0 actsRest (some cur) prv obsRest 0 (0, la0, ra0)
      = some (evs, (cur2, prv2, ts2, rest2)) := by
    simpa [runScheduler, hinit] using hrun
  exact (outerLoop_counts t0 ta0 actsRest (some cur) prv obsRest 0 (0, la0, ra0)
    evs cur2 prv2 ts2 rest2 hrun2).2.2.2

/-- Witness for the amended C6 on `obsW`, `actsW`: 3 appends for 3 updates
(and 5 predicts plus 3 updates in total, so the claimed count would be 8). -/
theorem scheduler_append_iff_update_witness :
    countEv isAppend wEvs = countEv isUpdate wEvs :=
  scheduler_append_iff_update obsW 0 1 2
    [RawLine.triple 6 3 4, RawLine.triple 12 5 6] 0 (0, 0, 0) (2, 1, 1)
    [RawLine.triple 5 2 2, RawLine.triple 9 3 3, RawLine.blank]
    wEvs none (5, 2, 2) 12 [] (by rfl) (by rfl)

/-- Counterexample to C6 as stated: on an action sample whose inner loop
drains no observation, the scheduler issues one catch-up predict and zero
appends, so the trajectory length (0) differs from the number of predict
plus update calls (1). -/
theorem scheduler_catchup_predict_no_append_cex :
    (runScheduler [RawLine.triple 0 0 0, RawLine.triple 5 1 1, RawLine.blank]
        [RawLine.triple 0 0 0, RawLine.triple 3 0 0]).map
        (fun p => (countEv isAppend p.1, countEv isPredict p.1 + countEv isUpdate p.1))
      = some (0, 1)
      ∧ (0 : Nat) ≠ 1 := by
  constructor
  · decide
  · decide



/-- Claim C3 (amended): for the interval ending at an action sample, every
predict the scheduler issues (the inner predicts and the catch-up predict
of that action's block, i.e. the trace prefix up to the first catch-up
predict) carries the cumulative left/right counts of the immediately
preceding action sample; the control pair `(v, w)` is computed from those
cumulative counts and the fixed constants `d_r`, `d_l`, `k`, `d` alone,
not from the difference between the two preceding action samples. -/
theorem scheduler_controls_from_previous_action_sample
    (t0 a0 ta la ra : Int) (acts2 : List RawLine) (cur : Option (Int × Int × Int))
    (prv : Int × Int × Int) (obsRest : List RawLine) (ts : Int) (tp lap rap : Int)
    (evs : List Event) (fin : Option (Int × Int × Int) × (Int × Int × Int) × Int × List RawLine)
    (h : outerLoop t0 a0 (RawLine.triple ta la ra :: acts2) cur prv obsRest ts (tp, lap, rap)
      = some (evs, fin)) :
    ∀ k lp rp dt, Event.predict k lp rp dt ∈ upToFirstCatchup evs → lp = lap ∧ rp = rap := by
  simp only [outerLoop] at h
  rcases hin : innerLoop t0 (ta - a0) lap rap obsRest cur prv ts
    with _ | ⟨evs1, c1, p1, t1, r1⟩
  · rw [hin] at h
    exact absurd h (by simp)
  · rw [hin] at h
    dsimp only at h
    rcases hrec : outerLoop t0 a0 acts2 c1 p1 r1 (ta - a0) (ta - a0, la, ra)
      with _ | ⟨evs3, fin2⟩
    · rw [hrec] at h
      exact absurd h (by simp)
    · rw [hrec] at h
      simp only [Option.some.injEq, Prod.mk.injEq] at h
      obtain ⟨he, _⟩ := h
      subst he
      obtain ⟨_, i2, _, _, i5⟩ :=
        innerLoop_counts t0 (ta - a0) lap rap obsRest cur prv ts evs1 c1 p1 t1 r1 hin
      rw [upToFirstCatchup_append evs1 i2
        (Event.predict PKind.catchup lap rap (mkDt (ta - a0) t1)) rfl evs3]
      intro k lp rp dt hm
      rcases List.mem_append.mp hm with hm | hm
      · exact ⟨(i5 k lp rp dt hm).2.1, (i5 k lp rp dt hm).2.2⟩
      · simp only [List.mem_singleton, Event.predict.injEq] at hm
        exact ⟨hm.2.1, hm.2.2.1⟩

/-- Witness for the amended C3: in the concrete one-action block
`[inner predict, update, append, catch-up predict]` started with previous
action counts `(7, 7)`, the inner predict's recorded counts are `(7, 7)`. -/
theorem scheduler_controls_from_previous_action_sample_witness :
    (7 : Int) = 7 ∧ (7 : Int) = 7 :=
  scheduler_controls_from_previous_action_sample 0 0 10 7 7 [RawLine.triple 20 7 7]
    (some (1, 1, 1)) (0, 0, 0) [RawLine.blank] 0 0 7 7
    [Event.predict PKind.inner 7 7 (mkDt 1 0), Event.update 1 1, Event.append,
     Event.predict PKind.catchup 7 7 (mkDt 10 1), Event.predict PKind.catchup 7 7 (mkDt 20 10)]
    (none, (0, 0, 0), 20, []) (by rfl)
    PKind.inner 7 7 (mkDt 1 0) (List.mem_cons_self _ _)



/-! ### Claim C5: behaviour at observation-stream exhaustion -/

/-- If the held observation sample is already exhausted, or every readable
observation line up to a blank sentinel is a triple, the inner loop cannot
crash, and the exhaustion state is preserved. -/
theorem innerLoop_blank_total (t0 tA lap rap : Int) :
    ∀ (rest : List RawLine) (cur : Option (Int × Int × Int)) (prv : Int × Int × Int) (ts : Int),
      (cur = none ∨ blankTerminated rest = true) →
      ∃ evs cur2 prv2 ts2 rest2,
        innerLoop t0 tA lap rap rest cur prv ts = some (evs, (cur2, prv2, ts2, rest2))
          ∧ (cur2 = none ∨ blankTerminated rest2 = true) := by
  intro rest
  induction rest with
  | nil =>
      intro cur prv ts hgood
      cases cur with
      | none => exact ⟨[], none, prv, ts, [], rfl, Or.inl rfl⟩
      | some trip =>
          rcases hgood with hgood | hgood
          · exact absurd hgood (by simp)
          · exact absurd hgood (by simp [blankTerminated])
  | cons line tail ih =>
      intro cur prv ts hgood
      cases cur with
      | none => exact ⟨[], none, prv, ts, line :: tail, by simp [innerLoop], Or.inl rfl⟩
      | some trip =>
          obtain ⟨tso, lo, ro⟩ := trip
          have hbt : blankTerminated (line :: tail) = true := by
            rcases hgood with hgood | hgood
            · exact absurd hgood (by simp)
            · exact hgood
          by_cases hle : tso ≤ tA
          · cases line with
            | blank =>
                refine ⟨innerBlock lap rap tso ts lo ro prv, none, prv, tso, tail, ?_, Or.inl rfl⟩
                simp [innerLoop, hle]
            | triple t l r =>
                have hbt2 : blankTerminated tail = true := by
                  simpa [blankTerminated] using hbt
                obtain ⟨evs2, c2, p2, t2, r2, heq, hg2⟩ :=
                  ih (some (t - t0, l, r)) (tso, lo, ro) tso (Or.inr hbt2)
                refine ⟨innerBlock lap rap tso ts lo ro prv ++ evs2, c2, p2, t2, r2, ?_, hg2⟩
                simp [innerLoop, hle, heq]
          · cases line with
            | blank =>
                exact ⟨[], some (tso, lo, ro), prv, ts, RawLine.blank :: tail,
                  by simp [innerLoop, hle], Or.inr hbt⟩
            | triple t l r =>
                exact ⟨[], some (tso, lo, ro), prv, ts, RawLine.triple t l r :: tail,
                  by simp [innerLoop, hle], Or.inr hbt⟩

/-- Claim C5 (amended): when the observation stream's sentinel is a blank
line (`'\n'`), the scheduler does not crash: once the sentinel is read the
remaining observation timestamp is treated as unbounded (`np.inf`), every
remaining action sample falls through to its final catch-up predict, and
the loop still issues exactly one catch-up predict per action sample.
(As stated the claim also covers plain end-of-input, where the code
crashes: see the counterexample.) -/
theorem scheduler_blank_sentinel_no_crash (t0 a0 : Int) :
    ∀ (acts : List RawLine) (cur : Option (Int × Int × Int)) (prv : Int × Int × Int)
      (obsRest : List RawLine) (ts : Int) (ap : Int × Int × Int),
      allTriples acts = true →
      (cur = none ∨ blankTerminated obsRest = true) →
      ∃ evs fin, outerLoop t0 a0 acts cur prv obsRest ts ap = some (evs, fin)
        ∧ countEv (isPredK PKind.catchup) evs = acts.length
        ∧ (cur = none → ∀ e ∈ evs, isPredK PKind.catchup e = true) := by
  intro acts
  induction acts with
  | nil =>
      intro cur prv obsRest ts ap _ _
      exact ⟨[], (cur, prv, ts, obsRest), rfl, rfl, fun _ _ h => absurd h (by simp)⟩
  | cons line acts2 ih =>
      intro cur prv obsRest ts ap hall hgood
      cases line with
      | blank => exact absurd hall (by simp [allTriples])
      | triple ta la ra =>
          have hall2 : allTriples acts2 = true := by simpa [allTriples] using hall
          obtain ⟨evs1, c1, p1, t1, r1, heq, hg2⟩ :=
            innerLoop_blank_total t0 (ta - a0) ap.2.1 ap.2.2 obsRest cur prv ts hgood
          obtain ⟨evs3, fin, hrec, hcnt, hcu⟩ :=
            ih c1 p1 r1 (ta - a0) (ta - a0, la, ra) hall2 hg2
          have hout : outerLoop t0 a0 (RawLine.triple ta la ra :: acts2) cur prv obsRest ts ap
              = some (evs1
                  ++ Event.predict PKind.catchup ap.2.1 ap.2.2 (mkDt (ta - a0) t1) :: evs3,
                  fin) := by
            simp [outerLoop, heq, hrec]
          have hc1 : countEv (isPredK PKind.catchup) evs1 = 0 :=
            (innerLoop_counts t0 (ta - a0) ap.2.1 ap.2.2 obsRest cur prv ts
              evs1 c1 p1 t1 r1 heq).2.1
          refine ⟨_, fin, hout, ?_, ?_⟩
          · rw [countEv_append, countEv_cons_pos rfl, hc1, hcnt, List.length_cons]
            omega
          · intro hcur e he
            subst hcur
            have h0 : evs1 = [] ∧ c1 = none := by
              simp only [innerLoop, Option.some.injEq, Prod.mk.injEq] at heq
              exact ⟨heq.1.symm, heq.2.1.symm⟩
            rcases List.mem_append.mp he with he | he
            · rw [h0.1] at he
              exact absurd he (by simp)
            · rcases List.mem_cons.mp he with he | he
              · subst he
                rfl
              · exact hcu h0.2 e he

/-- Witness for the amended C5: with the observation stream already
exhausted (`cur = none`), two remaining action samples produce a
successful run of two catch-up predicts and nothing else. -/
theorem scheduler_blank_sentinel_no_crash_witness :
    ∃ evs fin,
      outerLoop 0 0 [RawLine.triple 3 0 0, RawLine.triple 10 0 0] none (0, 0, 0) [] 0 (0, 0, 0)
          = some (evs, fin)
        ∧ countEv (isPredK PKind.catchup) evs
            = ([RawLine.triple 3 0 0, RawLine.triple 10 0 0] : List RawLine).length
        ∧ (none = (none : Option (Int × Int × Int)) →
            ∀ e ∈ evs, isPredK PKind.catchup e = true) :=
  scheduler_blank_sentinel_no_crash 0 0 [RawLine.triple 3 0 0, RawLine.triple 10 0 0]
    none (0, 0, 0) [] 0 (0, 0, 0) (by decide) (Or.inl rfl)

/-- Counterexample to C5 as stated: the observation stream below ends by
end-of-input (`readline` returns `''`) with no blank line, after its last
sample at normalized time 5; the action sample at normalized time 10 makes
the inner loop read past the end, and the scheduler crashes (the model
returns `none`) instead of treating the exhausted stream as unbounded
time. -/
theorem scheduler_eof_crash_cex :
    runScheduler [RawLine.triple 0 0 0, RawLine.triple 5 1 1]
        [RawLine.triple 0 0 0, RawLine.triple 3 0 0, RawLine.triple 10 0 0]
      = none := by
  rfl

/-! ### Claim C9: stream-clock normalization origins -/

/-- All lines are triples carrying exactly the counts `(l0, r0)`. -/
def sameCounts (l0 r0 : Int) : List RawLine → Bool
  | [] => true
  | RawLine.triple _ l r :: t => decide (l = l0) && decide (r = r0) && sameCounts l0 r0 t
  | RawLine.blank :: _ => false

/-- The timestamp of the last triple of the list, or the seed when the list
has no triple. -/
def lastTs (t : Int) : List RawLine → Int
  | [] => t
  | RawLine.triple t2 _ _ :: tl => lastTs t2 tl
  | RawLine.blank :: tl => lastTs t tl

/-- Skipping leading unchanged observation samples stops at the first
count change and reports the timestamp of the last unchanged sample as the
previous sample. -/
theorem findFirstObs_skip (l0 r0 tc lc rc : Int) (rest : List RawLine)
    (hchange : lc ≠ l0 ∨ rc ≠ r0) :
    ∀ (pre : List RawLine), sameCounts l0 r0 pre = true → ∀ tp,
      findFirstObs (pre ++ RawLine.triple tc lc rc :: rest) (tp, l0, r0)
        = some ((lastTs tp pre, l0, r0), (tc, lc, rc), rest) := by
  intro pre
  induction pre with
  | nil =>
      intro _ tp
      have hcond : lc - l0 ≠ 0 ∨ rc - r0 ≠ 0 := by omega
      simp [findFirstObs, lastTs, hcond]
  | cons line pre2 ih =>
      intro hsame tp
      cases line with
      | blank => exact absurd hsame (by simp [sameCounts])
      | triple t2 l2 r2 =>
          have h2 : l2 = l0 ∧ r2 = r0 ∧ sameCounts l0 r0 pre2 = true := by
            simpa [sameCounts, Bool.and_eq_true, decide_eq_true_eq, and_assoc] using hsame
          obtain ⟨hl2, hr2, hs2⟩ := h2
          subst hl2; subst hr2
          have hcond : ¬ (l2 - l2 ≠ 0 ∨ r2 - r2 ≠ 0) := by omega
          simp [findFirstObs, lastTs, hcond, ih hs2 t2]

/-- Claim C9 (amended): the action stream is normalized by its first
sample's timestamp, but the observation stream is normalized by the
timestamp of the last sample of its leading run of unchanged counts (the
sample immediately preceding the first tick change), so the observation
stream's first sample sits at time zero only when the second observation
sample already changes the counts. -/
theorem scheduler_stream_origins
    (t0 l0 r0 tc lc rc ta0 la0 ra0 : Int) (pre rest acts2 : List RawLine)
    (hpre : sameCounts l0 r0 pre = true) (hchange : lc ≠ l0 ∨ rc ≠ r0) :
    obsOrigin (RawLine.triple t0 l0 r0 :: (pre ++ RawLine.triple tc lc rc :: rest))
        = some (lastTs t0 pre)
      ∧ actsOrigin (RawLine.triple ta0 la0 ra0 :: acts2) = some ta0 := by
  refine ⟨?_, rfl⟩
  simp [obsOrigin, schedInit, findFirstObs_skip l0 r0 tc lc rc rest hchange pre hpre t0]

/-- Witness for the amended C9: one leading unchanged observation sample at
raw time 10 after the first sample at raw time 5 makes the observation
origin `lastTs 5 [triple 10 0 0] = 10`; the action origin is the first
action timestamp 3. -/
theorem scheduler_stream_origins_witness :
    obsOrigin (RawLine.triple 5 0 0
          :: ([RawLine.triple 10 0 0] ++ RawLine.triple 20 1 0 :: [RawLine.blank]))
        = some (lastTs 5 [RawLine.triple 10 0 0])
      ∧ actsOrigin (RawLine.triple 3 1 2 :: []) = some 3 :=
  scheduler_stream_origins 5 0 0 20 1 0 3 1 2 [RawLine.triple 10 0 0] [RawLine.blank] []
    (by decide) (by decide)

/-- Counterexample to C9 as stated: for the observation stream whose first
two samples carry identical counts, the origin the scheduler subtracts is
the second sample's timestamp 10, not the first sample's timestamp 5 (the
first sample therefore sits at normalized time -5, not 0). -/
theorem scheduler_obs_origin_cex :
    obsOrigin [RawLine.triple 5 0 0, RawLine.triple 10 0 0, RawLine.triple 20 1 0, RawLine.blank]
        = some 10
      ∧ firstTs [RawLine.triple 5 0 0, RawLine.triple 10 0 0, RawLine.triple 20 1 0,
          RawLine.blank] = some 5
      ∧ (10 : Int) ≠ 5 := by
  exact ⟨rfl, rfl, by decide⟩



/-! ### Claim C7: every dt passed to predict is non-negative -/

theorem mkDt_nonneg {tNew tOld : Int} (h : tOld ≤ tNew) : 0 ≤ mkDt tNew tOld := by
  unfold mkDt
  apply div_nonneg _ (by norm_num)
  exact_mod_cast Int.sub_nonneg.mpr h

/-- Invariant tying the last predict time to the held observation sample
and the sortedness of the unread observation lines (whose timestamps are
raw, i.e. not yet shifted by `tsObs0`). -/
def ObsOK (tsObs0 ts : Int) : Option (Int × Int × Int) → List RawLine → Prop
  | none, _ => True
  | some (tc, _, _), rest => ts ≤ tc ∧ linesSorted (some (tc + tsObs0)) rest = true

/-- Draining observations preserves the clock invariant: every `dt` passed
to `predict` inside the loop is non-negative, the last predict time never
passes the action timestamp, and on exit the held sample (if any) lies
strictly beyond the action timestamp. -/
theorem innerLoop_dt_nonneg (t0 tA lap rap : Int) :
    ∀ (rest : List RawLine) (cur : Option (Int × Int × Int)) (prv : Int × Int × Int) (ts : Int)
      (evs : List Event) (cur2 : Option (Int × Int × Int)) (prv2 : Int × Int × Int)
      (ts2 : Int) (rest2 : List RawLine),
      innerLoop t0 tA lap rap rest cur prv ts = some (evs, (cur2, prv2, ts2, rest2)) →
      ObsOK t0 ts cur rest → ts ≤ tA →
      (∀ k lp rp dt, Event.predict k lp rp dt ∈ evs → 0 ≤ dt)
        ∧ ts2 ≤ tA
        ∧ ObsOK t0 ts2 cur2 rest2
        ∧ (∀ tc lc rc, cur2 = some (tc, lc, rc) → tA < tc) := by
  intro rest
  induction rest with
  | nil =>
      intro cur prv ts evs cur2 prv2 ts2 rest2 h hobs hts
      cases cur with
      | none =>
          simp only [innerLoop, Option.some.injEq, Prod.mk.injEq] at h
          obtain ⟨he, hc, hp, ht, hr⟩ := h
          subst he; subst hc; subst hp; subst ht; subst hr
          exact ⟨fun k lp rp dt hm => absurd hm (by simp), hts, trivial,
            fun tc lc rc hc => by cases hc⟩
      | some trip =>
          obtain ⟨tso, lo, ro⟩ := trip
          by_cases hle : tso ≤ tA
          · simp [innerLoop, hle] at h
          · simp only [innerLoop, if_neg hle, Option.some.injEq, Prod.mk.injEq] at h
            obtain ⟨he, hc, hp, ht, hr⟩ := h
            subst he; subst hc; subst hp; subst ht; subst hr
            refine ⟨fun k lp rp dt hm => absurd hm (by simp), hts, hobs, ?_⟩
            intro tc lc rc hc
            injection hc with hc
            injection hc with hc1 _
            omega
  | cons line tail ih =>
      intro cur prv ts evs cur2 prv2 ts2 rest2 h hobs hts
      cases cur with
      | none =>
          simp only [innerLoop, Option.some.injEq, Prod.mk.injEq] at h
          obtain ⟨he, hc, hp, ht, hr⟩ := h
          subst he; subst hc; subst hp; subst ht; subst hr
          exact ⟨fun k lp rp dt hm => absurd hm (by simp), hts, trivial,
            fun tc lc rc hc => by cases hc⟩
      | some trip =>
          obtain ⟨tso, lo, ro⟩ := trip
          obtain ⟨hts1, hsort⟩ := hobs
          by_cases hle : tso ≤ tA
          · cases line with
            | blank =>
                simp only [innerLoop, if_pos hle, Option.some.injEq, Prod.mk.injEq] at h
                obtain ⟨he, hc, hp, ht, hr⟩ := h
                subst he; subst hc; subst hp; subst ht; subst hr
                refine ⟨?_, hle, trivial, fun tc lc rc hc => by cases hc⟩
                intro k lp rp dt hm
                simp only [innerBlock, List.mem_cons, List.not_mem_nil, or_false] at hm
                rcases hm with hm | hm | hm
                · injection hm with _ _ _ hdt
                  subst hdt
                  exact mkDt_nonneg hts1
                · cases hm
                · cases hm
            | triple t l r =>
                simp only [innerLoop, if_pos hle] at h
                rcases heq : innerLoop t0 tA lap rap tail (some (t - t0, l, r)) (tso, lo, ro) tso
                  with _ | ⟨evs2, c2, p2, t2, r2⟩
                · rw [heq] at h
                  exact absurd h (by simp)
                · rw [heq] at h
                  simp only [Option.some.injEq, Prod.mk.injEq] at h
                  obtain ⟨he, hc, hp, ht, hr⟩ := h
                  subst he; subst hc; subst hp; subst ht; subst hr
                  have hsort2 : tso + t0 ≤ t ∧ linesSorted (some t) tail = true := by
                    simpa [linesSorted, Bool.and_eq_true, decide_eq_true_eq] using hsort
                  have hobs2 : ObsOK t0 tso (some (t - t0, l, r)) tail := by
                    refine ⟨by omega, ?_⟩
                    have hsub : t - t0 + t0 = t := by omega
                    rw [hsub]
                    exact hsort2.2
                  obtain ⟨m1, m2, m3, m4⟩ :=
                    ih (some (t - t0, l, r)) (tso, lo, ro) tso evs2 c2 p2 t2 r2
                      heq hobs2 hle
                  refine ⟨?_, m2, m3, m4⟩
                  intro k lp rp dt hm
                  rcases List.mem_append.mp hm with hm | hm
                  · simp only [innerBlock, List.mem_cons, List.not_mem_nil, or_false] at hm
                    rcases hm with hm | hm | hm
                    · injection hm with _ _ _ hdt
                      subst hdt
                      exact mkDt_nonneg hts1
                    · cases hm
                    · cases hm
                  · exact m1 k lp rp dt hm
          · cases line <;>
              · simp only [innerLoop, if_neg hle, Option.some.injEq, Prod.mk.injEq] at h
                obtain ⟨he, hc, hp, ht, hr⟩ := h
                subst he; subst hc; subst hp; subst ht; subst hr
                refine ⟨fun k lp rp dt hm => absurd hm (by simp), hts, ⟨hts1, hsort⟩, ?_⟩
                intro tc lc rc hc
                injection hc with hc
                injection hc with hc1 _
                omega

/-- Whole-loop version: with sorted action lines and the observation
invariant, every `dt` passed to any predict (inner or catch-up) across the
whole run is non-negative. -/
theorem outerLoop_dt_nonneg (t0 a0 : Int) :
    ∀ (acts : List RawLine) (cur : Option (Int × Int × Int)) (prv : Int × Int × Int)
      (obsRest : List RawLine) (ts : Int) (ap : Int × Int × Int)
      (evs : List Event) (fin : Option (Int × Int × Int) × (Int × Int × Int) × Int × List RawLine),
      outerLoop t0 a0 acts cur prv obsRest ts ap = some (evs, fin) →
      ObsOK t0 ts cur obsRest → linesSorted (some (ts + a0)) acts = true →
      ∀ k lp rp dt, Event.predict k lp rp dt ∈ evs → 0 ≤ dt := by
  intro acts
  induction acts with
  | nil =>
      intro cur prv obsRest ts ap evs fin h _ _ k lp rp dt hm
      simp only [outerLoop, Option.some.injEq, Prod.mk.injEq] at h
      rw [← h.1] at hm
      exact absurd hm (by simp)
  | cons line acts2 ih =>
      intro cur prv obsRest ts ap evs fin h hobs hsort k lp rp dt hm
      cases line with
      | blank => exact absurd h (by simp [outerLoop])
      | triple ta la ra =>
          have hsort2 : ts + a0 ≤ ta ∧ linesSorted (some ta) acts2 = true := by
            simpa [linesSorted, Bool.and_eq_true, decide_eq_true_eq] using hsort
          have htsa : ts ≤ ta - a0 := by omega
          simp only [outerLoop] at h
          rcases hin : innerLoop t0 (ta - a0) ap.2.1 ap.2.2 obsRest cur prv ts
            with _ | ⟨evs1, c1, p1, t1, r1⟩
          · rw [hin] at h
            exact absurd h (by simp)
          · rw [hin] at h
            dsimp only at h
            rcases hrec : outerLoop t0 a0 acts2 c1 p1 r1 (ta - a0) (ta - a0, la, ra)
              with _ | ⟨evs3, fin2⟩
            · rw [hrec] at h
              exact absurd h (by simp)
            · rw [hrec] at h
              simp only [Option.some.injEq, Prod.mk.injEq] at h
              obtain ⟨he, _⟩ := h
              subst he
              obtain ⟨m1, m2, m3, m4⟩ :=
                innerLoop_dt_nonneg t0 (ta - a0) ap.2.1 ap.2.2 obsRest cur prv ts
                  evs1 c1 p1 t1 r1 hin hobs htsa
              have hobs3 : ObsOK t0 (ta - a0) c1 r1 := by
                cases c1 with
                | none => trivial
                | some trip2 =>
                    obtain ⟨tc, lc, rc⟩ := trip2
                    exact ⟨le_of_lt (m4 tc lc rc rfl), m3.2⟩
              have hsort3 : linesSorted (some ((ta - a0) + a0)) acts2 = true := by
                have hsub : ta - a0 + a0 = ta := by omega
                rw [hsub]
                exact hsort2.2
              rcases List.mem_append.mp hm with hm | hm
              · exact m1 k lp rp dt hm
              · rcases List.mem_cons.mp hm with hm | hm
                · injection hm with _ _ _ hdt
                  subst hdt
                  exact mkDt_nonneg m2
                · exact ih c1 p1 r1 (ta - a0) (ta - a0, la, ra) evs3 fin2 hrec hobs3
                    hsort3 k lp rp dt hm

/-- Skipping leading unchanged observation samples preserves sortedness:
the reported previous sample is no later than the first changed sample,
and the remainder stays sorted beyond the changed sample. -/
theorem findFirstObs_sorted :
    ∀ (lines : List RawLine) (tp lp rp : Int),
      linesSorted (some tp) lines = true →
      ∀ p c rest2, findFirstObs lines (tp, lp, rp) = some (p, c, rest2) →
      p.1 ≤ c.1 ∧ linesSorted (some c.1) rest2 = true := by
  intro lines
  induction lines with
  | nil =>
      intro tp lp rp _ p c rest2 h
      cases h
  | cons line tail ih =>
      intro tp lp rp hsort p c rest2 h
      cases line with
      | blank => cases h
      | triple t l r =>
          have hs2 : tp ≤ t ∧ linesSorted (some t) tail = true := by
            simpa [linesSorted, Bool.and_eq_true, decide_eq_true_eq] using hsort
          by_cases hch : l - lp ≠ 0 ∨ r - rp ≠ 0
          · simp only [findFirstObs, if_pos hch, Option.some.injEq, Prod.mk.injEq] at h
            obtain ⟨hp2, hc2, hr2⟩ := h
            subst hp2; subst hc2; subst hr2
            exact ⟨hs2.1, hs2.2⟩
          · simp only [findFirstObs, if_neg hch] at h
            exact ih t l r hs2.2 p c rest2 h

/-- Claim C7: when both input streams have monotonically non-decreasing
timestamps and the scheduler runs to completion, every `dt` it passes to
`predict` — in the observation-draining inner loop
(`dt = (ts_obs - ts)/1000`) and in the catch-up call
(`dt = (ts_acts - ts)/1000`) — is non-negative; equivalently the
last-predict-time variable `ts` never exceeds the timestamp of the next
predict it drives. -/
theorem scheduler_dt_nonneg
    (obsFile actsFile : List RawLine) (evs : List Event)
    (fin : Option (Int × Int × Int) × (Int × Int × Int) × Int × List RawLine)
    (hobs : linesSorted none obsFile = true)
    (hacts : linesSorted none actsFile = true)
    (hrun : runScheduler obsFile actsFile = some (evs, fin)) :
    ∀ k lp rp dt, Event.predict k lp rp dt ∈ evs → 0 ≤ dt := by
  cases obsFile with
  | nil => exact absurd hrun (by simp [runScheduler, schedInit])
  | cons oline obsTail =>
      cases oline with
      | blank => exact absurd hrun (by simp [runScheduler, schedInit])
      | triple to0 lo0 ro0 =>
          simp only [runScheduler, schedInit] at hrun
          rcases hff : findFirstObs obsTail (to0, lo0, ro0) with _ | ⟨pp, cc, rest2⟩
          · rw [hff] at hrun
            exact absurd hrun (by simp)
          · obtain ⟨tp2, lp2, rp2⟩ := pp
            obtain ⟨tc2, lc2, rc2⟩ := cc
            rw [hff] at hrun
            dsimp only at hrun
            cases actsFile with
            | nil => exact absurd hrun (by simp)
            | cons aline actsTail =>
                cases aline with
                | blank => exact absurd hrun (by simp)
                | triple ta0 la0 ra0 =>
                    dsimp only at hrun
                    have hsorto : linesSorted (some to0) obsTail = true := by
                      simpa [linesSorted] using hobs
                    obtain ⟨hpc, hsrest⟩ :=
                      findFirstObs_sorted obsTail to0 lo0 ro0 hsorto
                        (tp2, lp2, rp2) (tc2, lc2, rc2) rest2 hff
                    have hobsOK : ObsOK tp2 0 (some (tc2 - tp2, lc2, rc2)) rest2 := by
                      refine ⟨by omega, ?_⟩
                      have hsub : tc2 - tp2 + tp2 = tc2 := by omega
                      rw [hsub]
                      exact hsrest
                    have hsorta : linesSorted (some (0 + ta0)) actsTail = true := by
                      have hz : (0 : Int) + ta0 = ta0 := by omega
                      rw [hz]
                      simpa [linesSorted] using hacts
                    exact outerLoop_dt_nonneg tp2 ta0 actsTail (some (tc2 - tp2, lc2, rc2))
                      (0, lp2, rp2) rest2 0 (0, la0, ra0) evs fin hrun hobsOK hsorta

/-- Witness for C7: on the sorted concrete streams `obsW`, `actsW` the
first inner predict's `dt` is `(2 - 0)/1000 ≥ 0`. -/
theorem scheduler_dt_nonneg_witness : (0 : ℚ) ≤ mkDt 2 0 :=
  scheduler_dt_nonneg obsW actsW wEvs (none, (5, 2, 2), 12, [])
    (by decide) (by decide) (by rfl)
    PKind.inner 1 2 (mkDt 2 0) (List.mem_cons_self _ _)



/-! ### Real-valued model: constants, forward kinematics, baseline -/

/-- Line 107 of `sync.py`: the fixed right-wheel rate constant
`d_r = (4288936710 - 4288840803) / (1000 * 26.359 * 223)`. -/
noncomputable def dR : ℝ := (4288936710 - 4288840803) / (1000 * 26.359 * 223)

/-- Line 106 of `sync.py`: the fixed left-wheel rate constant
`d_l = (4283919143 - 4283826615) / (1000 * 26.359 * 223)`. -/
noncomputable def dL : ℝ := (4283919143 - 4283826615) / (1000 * 26.359 * 223)

/-- Line 93: `d = 0.490` (track length used in the control derivation). -/
noncomputable def dConst : ℝ := 0.490

/-- Lines 94-96, 105: `k = 2 * np.pi * r / counts_2pi` with `r = 0.130`,
`counts_2pi = 2394`. -/
noncomputable def kGeom : ℝ := 2 * Real.pi * 0.130 / 2394

/-- Line 116: `v = (d_r * right_acts_prev + d_l * left_acts_prev) / 2 * k`,
the linear control the scheduler passes to `predict` given the previous
action sample's cumulative counts. -/
noncomputable def ctrlV (leftPrev rightPrev : Int) : ℝ :=
  (dR * rightPrev + dL * leftPrev) / 2 * kGeom

/-- Line 117: `w = (d_r * right_acts_prev - d_l * left_acts_prev) / d * k`. -/
noncomputable def ctrlW (leftPrev rightPrev : Int) : ℝ :=
  (dR * rightPrev - dL * leftPrev) / dConst * kGeom

/-- The geometry-parameter dictionary of `forward_kinematics`: the three
keys the function reads; a missing key models `params.get` returning
`None`. -/
structure FKParams where
  diag_length : Option ℝ
  wheel_radius : Option ℝ
  counts_per_rotation : Option ℝ

/-- Python truthiness of `params.get(key)` for a float-or-missing value:
the `assert` passes iff the key is present and its value is not zero. -/
def okParam (v : Option ℝ) : Prop := v ≠ none ∧ v ≠ some 0

section
open Classical

/-- Lines 31-51 of `sync.py`: the arithmetic body of `forward_kinematics`
(after the asserts), returning `[dx, dy, dAngle]`. -/
noncomputable def fkCore (l r counts2pi th odoR odoL : ℝ) : List ℝ :=
  let k := 2 * Real.pi * r / counts2pi
  let dLenRight := odoR * k
  let dLenLeft := odoL * k
  let dLen := (dLenRight + dLenLeft) / 2
  let dAngle := (dLenRight - dLenLeft) / l
  if dAngle ≠ 0 then
    [dLen / dAngle * (-Real.sin th + Real.sin (th + dAngle)),
     dLen / dAngle * (Real.cos th - Real.cos (th + dAngle)),
     dAngle]
  else
    [dLen * Real.cos th, dLen * Real.sin th, dAngle]

/-- Lines 8-51 of `sync.py`: `forward_kinematics`.  The asserts at lines
25-29 (state is a 3-vector, odometry a 2-vector, each geometry parameter
present and truthy) become the guard; a failed assert is `none`
(`AssertionError`).  The state components are read positionally (`x`, `y`
are unpacked but only `th = state[2]` is used); the odometry is
`[right, left]`. -/
noncomputable def forward_kinematics (params : FKParams) (state odometry : List ℝ) :
    Option (List ℝ) :=
  if state.length = 3 ∧ odometry.length = 2 ∧
      okParam params.diag_length ∧ okParam params.wheel_radius ∧
      okParam params.counts_per_rotation then
    some (fkCore (params.diag_length.getD 0) (params.wheel_radius.getD 0)
      (params.counts_per_rotation.getD 0) (state.getD 2 0)
      (odometry.getD 0 0) (odometry.getD 1 0))
  else none

/-- The pose increment exactly as the specification's formulas in §4.1
state it: `k = 2π·r/countsPerRevolution`, `dRight = rightDelta·k`,
`dLeft = leftDelta·k`, `dLen = (dRight + dLeft)/2`,
`dAngle = (dRight − dLeft)/l`; the straight branch exactly when
`dAngle = 0`, the arc branch otherwise; returns `(dx, dy, dAngle)`. -/
noncomputable def specMotionDelta (l r countsPerRev th rightDelta leftDelta : ℝ) : List ℝ :=
  let k := 2 * Real.pi * r / countsPerRev
  let dRight := rightDelta * k
  let dLeft := leftDelta * k
  let dLen := (dRight + dLeft) / 2
  let dAngle := (dRight - dLeft) / l
  if dAngle = 0 then [dLen * Real.cos th, dLen * Real.sin th, dAngle]
  else
    [dLen / dAngle * (-Real.sin th + Real.sin (th + dAngle)),
     dLen / dAngle * (Real.cos th - Real.cos (th + dAngle)),
     dAngle]

/-- The two computations agree: the source's branch on `d_angle != 0` and
the specification's branch on `dAngle == 0` pick the same formulas. -/
theorem fkCore_eq_spec (l r c th a b : ℝ) :
    fkCore l r c th a b = specMotionDelta l r c th a b := by
  by_cases hA : (a * (2 * Real.pi * r / c) - b * (2 * Real.pi * r / c)) / l = 0
  · simp [fkCore, specMotionDelta, hA]
  · simp [fkCore, specMotionDelta, hA]

/-- With valid parameters and correctly shaped arguments, the asserts pass
and `forward_kinematics` returns the arithmetic body's value. -/
theorem fk_ok (l r c x y th a b : ℝ) (hl : l ≠ 0) (hr : r ≠ 0) (hc : c ≠ 0) :
    forward_kinematics ⟨some l, some r, some c⟩ [x, y, th] [a, b]
      = some (fkCore l r c th a b) := by
  have hok : ([x, y, th] : List ℝ).length = 3 ∧ ([a, b] : List ℝ).length = 2 ∧
      okParam (some l) ∧ okParam (some r) ∧ okParam (some c) := by
    refine ⟨rfl, rfl, ⟨by simp, by simp [hl]⟩, ⟨by simp, by simp [hr]⟩,
      ⟨by simp, by simp [hc]⟩⟩
  rw [forward_kinematics, if_pos hok]
  simp [List.getD]

/-- Both branches of the arithmetic body return a 3-element list whose
last element is `dAngle = (odoR·k − odoL·k)/l`. -/
theorem fkCore_theta (l r c th a b : ℝ) :
    (fkCore l r c th a b).getD 2 0
      = (a * (2 * Real.pi * r / c) - b * (2 * Real.pi * r / c)) / l := by
  unfold fkCore
  dsimp only
  split <;> simp [List.getD]

theorem fkCore_length (l r c th a b : ℝ) : (fkCore l r c th a b).length = 3 := by
  unfold fkCore
  dsimp only
  split <;> rfl

end


/-- Claim C1: for every geometry parameter set with all three parameters
non-zero, every pose and every pair of per-wheel tick deltas
(`odometry = [right, left]`), `forward_kinematics` returns exactly the pose
increment given by the specification's arc-kinematics formulas, taking the
straight branch exactly when `dAngle = 0`. -/
theorem forward_kinematics_matches_spec (l r c x y th dRt dLt : ℝ)
    (hl : l ≠ 0) (hr : r ≠ 0) (hc : c ≠ 0) :
    forward_kinematics ⟨some l, some r, some c⟩ [x, y, th] [dRt, dLt]
      = some (specMotionDelta l r c th dRt dLt) := by
  rw [fk_ok l r c x y th dRt dLt hl hr hc, fkCore_eq_spec]

/-- Witness for C1 at `l = r = c = 1`, pose `(0,0,0)`, deltas `(1, 0)`. -/
theorem forward_kinematics_matches_spec_witness :
    forward_kinematics ⟨some 1, some 1, some 1⟩ [0, 0, 0] [1, 0]
      = some (specMotionDelta 1 1 1 0 1 0) :=
  forward_kinematics_matches_spec 1 1 1 0 0 0 1 0 (by norm_num) (by norm_num) (by norm_num)

/-- Claim C10: `forward_kinematics` raises an assertion failure (returns
`none` in the model) exactly when a precondition is violated — the state
is not a 3-vector, the odometry is not a 2-vector, or a geometry parameter
is missing or falsy (zero counts the same as missing) — and for all other
inputs returns a 3-vector without raising. -/
theorem forward_kinematics_assert_iff (p : FKParams) (state odometry : List ℝ) :
    (∃ out, forward_kinematics p state odometry = some out ∧ out.length = 3)
      ↔ state.length = 3 ∧ odometry.length = 2 ∧ okParam p.diag_length ∧
        okParam p.wheel_radius ∧ okParam p.counts_per_rotation := by
  constructor
  · rintro ⟨out, hout, -⟩
    by_cases hok : state.length = 3 ∧ odometry.length = 2 ∧ okParam p.diag_length ∧
        okParam p.wheel_radius ∧ okParam p.counts_per_rotation
    · exact hok
    · rw [forward_kinematics, if_neg hok] at hout
      cases hout
  · intro hok
    exact ⟨_, by rw [forward_kinematics, if_pos hok], fkCore_length _ _ _ _ _ _⟩

/-! ### Dead-reckoning baseline (lines 146-172 of `sync.py`) -/

/-- Lines 65-67: the geometry parameter dictionary
`{'diag_length': 0.490, 'wheel_radius': 0.130, 'counts_per_rotation': 2394}`. -/
noncomputable def baseParams : FKParams := ⟨some 0.490, some 0.130, some 2394⟩

/-- Line 165: the odometry argument the baseline passes to
`forward_kinematics`: `[right*d_time*d_r, left*d_time*d_l]`, where `left`
and `right` are the PREVIOUS line's cumulative counts (they are overwritten
only after `odometry` is built). -/
noncomputable def codeOdometry (left right : Int) (dTime : ℝ) : List ℝ :=
  [(right : ℝ) * dTime * dR, (left : ℝ) * dTime * dL]

/-- Lines 158-172: the dead-reckoning loop.  Per parsed line: compute
`d_time` from consecutive timestamps, build the odometry from the previous
line's counts, step the pose through `forward_kinematics`, append the new
pose.  A blank line or end of input ends the loop (`if not inp: break`);
an assertion failure inside `forward_kinematics` is `none`. -/
noncomputable def baselineLoop :
    List RawLine → Int → Int → Int → (ℝ × ℝ × ℝ) → Option (List (ℝ × ℝ × ℝ))
  | [], _, _, _, _ => some []
  | RawLine.blank :: _, _, _, _, _ => some []
  | RawLine.triple t l r :: rest, tsLast, left, right, st =>
      let dTime : ℝ := ((t - tsLast : Int) : ℝ) / 1000
      match forward_kinematics baseParams [st.1, st.2.1, st.2.2]
          (codeOdometry left right dTime) with
      | none => none
      | some d =>
          let st2 : ℝ × ℝ × ℝ :=
            (st.1 + d.getD 0 0, st.2.1 + d.getD 1 0, st.2.2 + d.getD 2 0)
          match baselineLoop rest t l r st2 with
          | none => none
          | some traj => some (st2 :: traj)

/-- Lines 146-172: the baseline trajectory: initial pose `(0,0,0)` is
appended first (lines 151-153), the first line only seeds
`timestamp_last, left, right` (line 149), then the loop appends one pose
per subsequent line. -/
noncomputable def baselineTraj (file : List RawLine) : Option (List (ℝ × ℝ × ℝ)) :=
  match file with
  | RawLine.triple t0 l0 r0 :: rest =>
      (baselineLoop rest t0 l0 r0 (0, 0, 0)).map (fun traj => (0, 0, 0) :: traj)
  | _ => none

/-- Modelled from claim C8's wording: per-wheel inputs for the interval
between line `i` and line `i+1` are the DIFFERENCES of the cumulative
counts of those two lines, scaled by the per-wheel rate constants and the
interval `dt`. -/
noncomputable def deltaOdometry (left right l2 r2 : Int) (dTime : ℝ) : List ℝ :=
  [((r2 - right : Int) : ℝ) * dTime * dR, ((l2 - left : Int) : ℝ) * dTime * dL]

/-- The baseline as claim C8 describes it: identical to `baselineLoop`
except that the motion model consumes the tick differences between the two
lines bounding the interval. -/
noncomputable def specBaselineLoop :
    List RawLine → Int → Int → Int → (ℝ × ℝ × ℝ) → Option (List (ℝ × ℝ × ℝ))
  | [], _, _, _, _ => some []
  | RawLine.blank :: _, _, _, _, _ => some []
  | RawLine.triple t l r :: rest, tsLast, left, right, st =>
      let dTime : ℝ := ((t - tsLast : Int) : ℝ) / 1000
      match forward_kinematics baseParams [st.1, st.2.1, st.2.2]
          (deltaOdometry left right l r dTime) with
      | none => none
      | some d =>
          let st2 : ℝ × ℝ × ℝ :=
            (st.1 + d.getD 0 0, st.2.1 + d.getD 1 0, st.2.2 + d.getD 2 0)
          match specBaselineLoop rest t l r st2 with
      | none => none
      | some traj => some (st2 :: traj)

/-- Trajectory of the claim-C8-worded baseline. -/
noncomputable def specBaselineTraj (file : List RawLine) : Option (List (ℝ × ℝ × ℝ)) :=
  match file with
  | RawLine.triple t0 l0 r0 :: rest =>
      (specBaselineLoop rest t0 l0 r0 (0, 0, 0)).map (fun traj => (0, 0, 0) :: traj)
  | _ => none

/-- The amended description of the baseline step, written from the
specification's motion-model formulas (§4.1) and the amended wording: the
per-wheel inputs are the PREVIOUS line's cumulative counts scaled by the
rate constants and `dt`; the pose accumulates with no covariance and no
correction, one appended pose per line. -/
noncomputable def amendedBaselineLoop :
    List RawLine → Int → Int → Int → (ℝ × ℝ × ℝ) → Option (List (ℝ × ℝ × ℝ))
  | [], _, _, _, _ => some []
  | RawLine.blank :: _, _, _, _, _ => some []
  | RawLine.triple t l r :: rest, tsLast, left, right, st =>
      let dTime : ℝ := ((t - tsLast : Int) : ℝ) / 1000
      let d := specMotionDelta 0.490 0.130 2394 st.2.2
        ((right : ℝ) * dTime * dR) ((left : ℝ) * dTime * dL)
      let st2 : ℝ × ℝ × ℝ :=
        (st.1 + d.getD 0 0, st.2.1 + d.getD 1 0, st.2.2 + d.getD 2 0)
      match amendedBaselineLoop rest t l r st2 with
      | none => none
      | some traj => some (st2 :: traj)

/-- Trajectory of the amended baseline description. -/
noncomputable def amendedBaselineTraj (file : List RawLine) : Option (List (ℝ × ℝ × ℝ)) :=
  match file with
  | RawLine.triple t0 l0 r0 :: rest =>
      (amendedBaselineLoop rest t0 l0 r0 (0, 0, 0)).map (fun traj => (0, 0, 0) :: traj)
  | _ => none


/-- The source baseline loop and the amended description coincide step by
step: the asserts never fire (the fixed parameters are non-zero and the
shapes are right), and the source's arithmetic equals the specification's
motion-model formulas applied to the previous line's counts. -/
theorem baselineLoop_eq_amended :
    ∀ (rest : List RawLine) (tsLast left right : Int) (st : ℝ × ℝ × ℝ),
      baselineLoop rest tsLast left right st = amendedBaselineLoop rest tsLast left right st := by
  intro rest
  induction rest with
  | nil => intro tsLast left right st; rfl
  | cons line tail ih =>
      intro tsLast left right st
      cases line with
      | blank => rfl
      | triple t l r =>
          have hfk := fk_ok 0.490 0.130 2394 st.1 st.2.1 st.2.2
            ((right : ℝ) * (((t - tsLast : Int) : ℝ) / 1000) * dR)
            ((left : ℝ) * (((t - tsLast : Int) : ℝ) / 1000) * dL)
            (by norm_num) (by norm_num) (by norm_num)
          simp only [baselineLoop, amendedBaselineLoop, codeOdometry, baseParams]
          rw [hfk]
          dsimp only
          rw [fkCore_eq_spec, ih]

/-- Claim C8 (amended): each step of the dead-reckoning baseline applies
`forward_kinematics` to the PREVIOUS line's cumulative left/right counts
scaled by the fixed per-wheel rate constants and the interval `dt`,
accumulating the running pose with no covariance and no correction and
appending one pose per line — i.e. the source baseline equals the amended
description built from the specification's motion model. -/
theorem baseline_matches_amended_description (file : List RawLine) :
    baselineTraj file = amendedBaselineTraj file := by
  cases file with
  | nil => rfl
  | cons line rest =>
      cases line with
      | blank => rfl
      | triple t0 l0 r0 =>
          simp [baselineTraj, amendedBaselineTraj, baselineLoop_eq_amended]

/-- Concrete two-line evaluation of the source baseline. -/
theorem baselineTraj_two (t0 l0 r0 t1 l1 r1 : Int) :
    baselineTraj [RawLine.triple t0 l0 r0, RawLine.triple t1 l1 r1]
      = some [(0, 0, 0),
          ((fkCore 0.490 0.130 2394 0 ((r0 : ℝ) * (((t1 : ℝ) - (t0 : ℝ)) / 1000) * dR)
              ((l0 : ℝ) * (((t1 : ℝ) - (t0 : ℝ)) / 1000) * dL)).getD 0 0,
           (fkCore 0.490 0.130 2394 0 ((r0 : ℝ) * (((t1 : ℝ) - (t0 : ℝ)) / 1000) * dR)
              ((l0 : ℝ) * (((t1 : ℝ) - (t0 : ℝ)) / 1000) * dL)).getD 1 0,
           (fkCore 0.490 0.130 2394 0 ((r0 : ℝ) * (((t1 : ℝ) - (t0 : ℝ)) / 1000) * dR)
              ((l0 : ℝ) * (((t1 : ℝ) - (t0 : ℝ)) / 1000) * dL)).getD 2 0)] := by
  have hfk := fk_ok 0.490 0.130 2394 0 0 0
    ((r0 : ℝ) * (((t1 : ℝ) - (t0 : ℝ)) / 1000) * dR)
    ((l0 : ℝ) * (((t1 : ℝ) - (t0 : ℝ)) / 1000) * dL)
    (by norm_num) (by norm_num) (by norm_num)
  simp [baselineTraj, baselineLoop, codeOdometry, baseParams, hfk]

/-- Concrete two-line evaluation of the claim-C8-worded baseline. -/
theorem specBaselineTraj_two (t0 l0 r0 t1 l1 r1 : Int) :
    specBaselineTraj [RawLine.triple t0 l0 r0, RawLine.triple t1 l1 r1]
      = some [(0, 0, 0),
          ((fkCore 0.490 0.130 2394 0 (((r1 : ℝ) - (r0 : ℝ)) * (((t1 : ℝ) - (t0 : ℝ)) / 1000) * dR)
              (((l1 : ℝ) - (l0 : ℝ)) * (((t1 : ℝ) - (t0 : ℝ)) / 1000) * dL)).getD 0 0,
           (fkCore 0.490 0.130 2394 0 (((r1 : ℝ) - (r0 : ℝ)) * (((t1 : ℝ) - (t0 : ℝ)) / 1000) * dR)
              (((l1 : ℝ) - (l0 : ℝ)) * (((t1 : ℝ) - (t0 : ℝ)) / 1000) * dL)).getD 1 0,
           (fkCore 0.490 0.130 2394 0 (((r1 : ℝ) - (r0 : ℝ)) * (((t1 : ℝ) - (t0 : ℝ)) / 1000) * dR)
              (((l1 : ℝ) - (l0 : ℝ)) * (((t1 : ℝ) - (t0 : ℝ)) / 1000) * dL)).getD 2 0)] := by
  have hfk := fk_ok 0.490 0.130 2394 0 0 0
    (((r1 : ℝ) - (r0 : ℝ)) * (((t1 : ℝ) - (t0 : ℝ)) / 1000) * dR)
    (((l1 : ℝ) - (l0 : ℝ)) * (((t1 : ℝ) - (t0 : ℝ)) / 1000) * dL)
    (by norm_num) (by norm_num) (by norm_num)
  simp [specBaselineTraj, specBaselineLoop, deltaOdometry, baseParams, hfk]

/-- Claim C4: the input stream below has identical left and right tick
deltas at every sample (both wheels advance by 100), yet the baseline's
second pose has non-zero heading, because line 165 feeds the previous
line's CUMULATIVE counts (scaled by `dt` and by the two different rate
constants `d_r ≠ d_l`) into `forward_kinematics` instead of the tick
deltas: the code contradicts the zero-heading property the specification
states for such runs. -/
theorem baseline_heading_drift_on_equal_deltas :
    ((baselineTraj [RawLine.triple 0 100 100, RawLine.triple 1000 200 200]).map
        (fun tr => (tr.getD 1 (0, 0, 0)).2.2))
      ≠ some 0 := by
  rw [baselineTraj_two]
  simp only [Option.map_some', List.getD_cons_succ, List.getD_cons_zero, Ne,
    Option.some.injEq]
  rw [fkCore_theta]
  push_cast
  intro h
  have hpos : (0 : ℝ) < (100 * dR - 100 * dL) * (2 * Real.pi * 0.130 / 2394) / 0.49 := by
    apply div_pos (mul_pos (by norm_num [dR, dL]) (by positivity)) (by norm_num)
  exact absurd (by linear_combination h) (ne_of_gt hpos)

/-- Counterexample to C8 as stated: on the interval from line
`(0, 100, 100)` to line `(1000, 150, 130)`, the odometry the code builds
from the previous line's cumulative counts differs from the claim's
difference-based odometry, and the resulting trajectories differ in the
heading of the second pose. -/
theorem baseline_cumulative_vs_delta_cex :
    codeOdometry 100 100 1 ≠ deltaOdometry 100 100 150 130 1
    ∧ ((baselineTraj [RawLine.triple 0 100 100, RawLine.triple 1000 150 130]).map
        (fun tr => (tr.getD 1 (0, 0, 0)).2.2))
      ≠ ((specBaselineTraj [RawLine.triple 0 100 100, RawLine.triple 1000 150 130]).map
        (fun tr => (tr.getD 1 (0, 0, 0)).2.2)) := by
  constructor
  · intro h
    simp only [codeOdometry, deltaOdometry, List.cons.injEq, and_true] at h
    have h1 := h.1
    push_cast at h1
    norm_num [dR] at h1
  · rw [baselineTraj_two, specBaselineTraj_two]
    simp only [Option.map_some', List.getD_cons_succ, List.getD_cons_zero, Ne,
      Option.some.injEq]
    rw [fkCore_theta, fkCore_theta]
    push_cast
    intro h
    have hpos : (0 : ℝ) < (70 * dR - 50 * dL) * (2 * Real.pi * 0.130 / 2394) / 0.49 := by
      apply div_pos (mul_pos (by norm_num [dR, dL]) (by positivity)) (by norm_num)
    exact absurd (by linear_combination h) (ne_of_gt hpos)

/-! ### Claim C3 counterexample: controls are not a function of the deltas -/

/-- Observation stream for the two control-comparison runs. -/
def obsA : List RawLine := [RawLine.triple 0 0 0, RawLine.triple 1 1 1, RawLine.blank]

/-- Action stream A: constant cumulative counts 7. -/
def actsA : List RawLine :=
  [RawLine.triple 0 7 7, RawLine.triple 10 7 7, RawLine.triple 20 7 7]

/-- Action stream B: constant cumulative counts 3. -/
def actsB : List RawLine :=
  [RawLine.triple 0 3 3, RawLine.triple 10 3 3, RawLine.triple 20 3 3]

/-- Counterexample to C3 as stated: streams A and B have identical tick
deltas between consecutive action samples (all zero) and identical
geometry, yet every predict of run A uses counts `(7, 7)` and every
predict of run B uses counts `(3, 3)`, and the control pairs
`(ctrlV, ctrlW)` built from them differ — so `(v, w)` is not a function of
the previous action sample's tick deltas and the fixed constants alone. -/
theorem scheduler_controls_not_from_deltas_cex :
    (runScheduler obsA actsA).map (fun p => predictCounts p.1)
        = some [(7, 7), (7, 7), (7, 7)]
    ∧ (runScheduler obsA actsB).map (fun p => predictCounts p.1)
        = some [(3, 3), (3, 3), (3, 3)]
    ∧ actsDeltas actsA = actsDeltas actsB
    ∧ ctrlV 7 7 ≠ ctrlV 3 3
    ∧ ctrlW 7 7 ≠ ctrlW 3 3 := by
  refine ⟨by rfl, by rfl, by rfl, ?_, ?_⟩
  · intro h
    unfold ctrlV at h
    push_cast at h
    have hpos : (0 : ℝ) < 2 * (dR + dL) * kGeom := by
      have h1 : (0 : ℝ) < dR + dL := by norm_num [dR, dL]
      have h2 : (0 : ℝ) < kGeom := by unfold kGeom; positivity
      exact mul_pos (mul_pos (by norm_num) h1) h2
    exact absurd (by linear_combination h) (ne_of_gt hpos)
  · intro h
    unfold ctrlW at h
    push_cast at h
    have hpos : (0 : ℝ) < 4 * (dR - dL) * kGeom / dConst := by
      have h1 : (0 : ℝ) < dR - dL := by norm_num [dR, dL]
      have h2 : (0 : ℝ) < kGeom := by unfold kGeom; positivity
      exact div_pos (mul_pos (mul_pos (by norm_num) h1) h2) (by norm_num [dConst])
    exact absurd (by linear_combination h) (ne_of_gt hpos)


/-- Witness for C10: with all three parameters present and non-zero and
correctly shaped vectors, `forward_kinematics` returns a 3-vector. -/
theorem forward_kinematics_assert_iff_witness :
    ∃ out, forward_kinematics ⟨some 1, some 1, some 1⟩ [0, 0, 0] [0, 0] = some out
      ∧ out.length = 3 :=
  (forward_kinematics_assert_iff ⟨some 1, some 1, some 1⟩ [0, 0, 0] [0, 0]).mpr
    ⟨rfl, rfl, ⟨by simp, by simp⟩, ⟨by simp, by simp⟩, ⟨by simp, by simp⟩⟩

end Sync
